import Mathlib

/-!
Verification of the configuration-injection core (`simmc/utils/conf_injector.py`).

The Python module persists per-instance configuration state keyed by class
identity into a single shared JSON document.  We shallowly embed its data
model and operations:

* Python runtime values become the inductive `PyVal` (with an explicit
  constructor for callable attributes, since discovery filters on
  `callable`); declared types (annotation values) become `TyTag`.
* A class is its qualified name plus its resolved type hints
  (`get_type_hints`) and its class-attribute table (`getattr`, `dir`).
* Dictionaries (`field_types`, class blocks, the whole document, an
  instance's effective attribute view) are association lists with
  `lookupKey` / `setEntry` giving Python-dict lookup and assignment
  semantics.
* The external value codec (`serialize_value` / `deserialize_value`) is a
  parameter of type `Codec`; it may fail, as in the source.
* File-system effects are explicit: the document file's content is a
  `FileContent`, the temporary file a `TmpState`, and each fallible OS call
  (`open`, read, `mkstemp`, `json.dump`, `os.replace`) is driven by a
  boolean outcome supplied by the environment.
-/

/-- A Python runtime value, as far as the injector observes it: the codec
maps values to and from JSON-compatible values, and field discovery only
asks whether a class attribute is callable. -/
inductive PyVal where
  | int (n : Int)
  | str (s : String)
  | bool (b : Bool)
  | fn (tag : String)
deriving DecidableEq

/-- `callable(v)` for the values we model: only `fn` is callable. -/
def PyVal.isCallable : PyVal → Bool
  | .fn _ => true
  | _ => false

/-- A declared field type (the value of a type annotation). -/
inductive TyTag where
  | tInt
  | tStr
  | tBool
  | tNamed (s : String)
deriving DecidableEq

/-- Python-dict lookup on an association list: first binding wins. -/
def lookupKey {α : Type} (k : String) : List (String × α) → Option α
  | [] => none
  | (k', v) :: rest => if k' = k then some v else lookupKey k rest

/-- Python-dict assignment `d[k] = v`: replace the binding if the key is
present, append it otherwise. -/
def setEntry {α : Type} (k : String) (v : α) : List (String × α) → List (String × α)
  | [] => [(k, v)]
  | (k', v') :: rest => if k' = k then (k, v) :: rest else (k', v') :: setEntry k v rest

/-- Equality of fallible results is decidable; used only to evaluate the
model on concrete inputs. -/
def exceptDecEqFn {ε α : Type} [DecidableEq ε] [DecidableEq α] :
    (a b : Except ε α) → Decidable (a = b)
  | .error e1, .error e2 =>
    if h : e1 = e2 then .isTrue (by rw [h])
    else .isFalse (fun he => h (Except.error.inj he))
  | .error _, .ok _ => .isFalse (fun he => Except.noConfusion he)
  | .ok _, .error _ => .isFalse (fun he => Except.noConfusion he)
  | .ok a1, .ok a2 =>
    if h : a1 = a2 then .isTrue (by rw [h])
    else .isFalse (fun he => h (Except.ok.inj he))

instance {ε α : Type} [DecidableEq ε] [DecidableEq α] : DecidableEq (Except ε α) :=
  exceptDecEqFn

/-- A Python class as the injector sees it: its qualified name (the
document key), its resolved type hints (`get_type_hints(cls)`), and its
class-attribute table (what `dir(cls)` / `getattr(cls, name)` expose). -/
structure PyClass where
  qualname : String
  annots : List (String × TyTag)
  attrs : List (String × PyVal)

/-- `callable(getattr(cls, name, None))`: when the attribute is absent the
default `None` is not callable. -/
def classAttrCallable (cls : PyClass) (name : String) : Bool :=
  match lookupKey name cls.attrs with
  | some v => v.isCallable
  | none => false

/-- `name.startswith('_')` for the one needle the source ever uses: the
name's first character is an underscore. -/
def underscorePrefixed (s : String) : Bool :=
  match s.data with
  | [] => false
  | c :: _ => c = '_'

/-- The four guards of the candidate loop in `_get_configurable_fields`:
annotated, present in `instance_defaults`, not underscore-prefixed, and the
class attribute is not callable. -/
def fieldOk (cls : PyClass) (instDefaults : List String) (name : String) : Bool :=
  (lookupKey name cls.annots).isSome
    && instDefaults.contains name
    && !(underscorePrefixed name)
    && !(classAttrCallable cls name)

/-- `_get_configurable_fields(cls, explicit_fields, instance_defaults)`.
The candidates are the whitelist when one is supplied (`explicit_fields if
explicit_fields is not None else annotations.keys()`), otherwise all
annotated names; each candidate passes the four guards or is skipped.  The
source fills the dict `field_types` and the set `valid_fields` in one loop;
since those outputs are observed only through lookup and membership we
build them as the filtered candidate list and its annotation table. -/
def getConfigurableFields (cls : PyClass) (explicitFields : Option (List String))
    (instDefaults : List String) : List (String × TyTag) × List String :=
  let candidates :=
    match explicitFields with
    | some fs => fs
    | none => cls.annots.map Prod.fst
  let valid := candidates.filter (fieldOk cls instDefaults)
  (valid.filterMap (fun n => (lookupKey n cls.annots).map (fun t => (n, t))), valid)

/-- The effective attribute view of a live instance: `hasattr` /
`getattr(instance, k)` is `lookupKey k`, and a successful `setattr`
updates the binding (`setEntry`).  Class-level defaults visible through
the instance are part of this view. -/
abbrev Inst := List (String × PyVal)

/-- A class block of the persisted document: field name to encoded value. -/
abbrev Block := List (String × PyVal)

/-- The persisted document: class key to class block. -/
abbrev Doc := List (String × Block)

/-- One direction of the external value codec (`serialize_value` or
`deserialize_value`): given a value and the declared type, produce a value
or fail.  Its coercion rules are out of scope; it is a parameter. -/
abbrev Codec := PyVal → TyTag → Except String PyVal

/-- The result of `setattr(instance, k, v)`: either the updated instance or
a raised error. -/
abbrev SetAttrFn := Inst → String → PyVal → Except String Inst

/-- The default attribute path: assignment always succeeds and updates the
binding. -/
def normalSetAttr : SetAttrFn := fun i k v => .ok (setEntry k v i)

/-- The attribute path of a class whose `__setattr__` was replaced by
`Inject.__protect_class`: every assignment raises before any mutation
happens (see `invokeSetattrSlot` below for the exact error raised). -/
def protectedSetAttr : SetAttrFn := fun _ _ _ => .error "cannot set attribute"

/-- The per-field injection loop of `ConfigSession.__enter__`.  For each
field: skip silently when `hasattr` fails; `field_types[key]` is evaluated
outside the `try`, so a missing entry raises `KeyError` and aborts;
`raw = class_config.get(key, default_val)`; `deserialize_value` and
`setattr` run inside a `try` whose handler prints a warning and moves on,
so a decode failure or a setattr failure leaves the field at its pre-load
value and processing continues. -/
def enterInject (decode : Codec) (setAttr : SetAttrFn) (ft : List (String × TyTag))
    (block : Block) : List String → Inst → Except String Inst
  | [], inst => .ok inst
  | key :: rest, inst =>
    match lookupKey key inst with
    | none => enterInject decode setAttr ft block rest inst
    | some cur =>
      match lookupKey key ft with
      | none => .error "KeyError"
      | some ty =>
        match decode ((lookupKey key block).getD cur) ty with
        | .error _ => enterInject decode setAttr ft block rest inst
        | .ok v =>
          match setAttr inst key v with
          | .error _ => enterInject decode setAttr ft block rest inst
          | .ok inst2 => enterInject decode setAttr ft block rest inst2

/-- The block-building loop of `ConfigSession.__exit__`.
`field_types[key]` is again outside the `try` (missing entry raises);
`getattr` and `serialize_value` are inside it, so an absent attribute or an
encode failure skips the field with a diagnostic and the loop continues. -/
def buildBlock (encode : Codec) (ft : List (String × TyTag)) (inst : Inst) :
    List String → Except String Block
  | [] => .ok []
  | key :: rest =>
    match lookupKey key ft with
    | none => .error "KeyError"
    | some ty =>
      match lookupKey key inst with
      | none => buildBlock encode ft inst rest
      | some v =>
        match encode v ty with
        | .error _ => buildBlock encode ft inst rest
        | .ok ev => (buildBlock encode ft inst rest).map (fun b => (key, ev) :: b)

/-- What the document file holds on disk: absent, present but not valid
JSON, or a parsed document. -/
inductive FileContent where
  | absentFile
  | corrupt
  | valid (d : Doc)
deriving DecidableEq

/-- The temporary file created by the save phase. -/
inductive TmpState where
  | noTmp
  | emptyTmp
  | partialTmp
  | fullTmp (d : Doc)
deriving DecidableEq

/-- The file-system state the injector touches: the target document file
and the temporary file used by the save phase. -/
structure FSt where
  target : FileContent
  tmp : TmpState
deriving DecidableEq

/-- The document read in `ConfigSession.__enter__`.  `self._path.exists()`
false skips the read entirely; `open()` sits OUTSIDE the `try`, so a
failed open raises `OSError` to the caller; `json.load` runs inside a
`try ... except (JSONDecodeError, OSError): pass`, so a read error after a
successful open or malformed content leaves `full_config = {}`. -/
def readDocEnter (file : FileContent) (openOk readOk : Bool) : Except String Doc :=
  match file with
  | .absentFile => .ok []
  | .corrupt =>
    if !openOk then .error "OSError from open"
    else .ok []
  | .valid d =>
    if !openOk then .error "OSError from open"
    else if !readOk then .ok []
    else .ok d

/-- The fresh re-read in `ConfigSession.__exit__`.  Unlike the enter phase,
`open` is inside the `try`, so every failure (open, read, parse) is caught
and the document is treated as empty. -/
def readDocExit (file : FileContent) (openOk readOk : Bool) : Doc :=
  match file with
  | .absentFile => []
  | .corrupt => []
  | .valid d => if !openOk || !readOk then [] else d

inductive SaveErr where
  | mkstempFailed
  | writeFailed
  | replaceFailed
deriving DecidableEq

/-- `os.unlink(tmp_path)` in the `except` handler. -/
def unlinkTmp (fs : FSt) : FSt := ⟨fs.target, .noTmp⟩

/-- The body of the `try` in the save section: `json.dump` the full
document into the temp file, then `os.replace` it onto the target.  A
failed dump leaves a partially written temp file; `os.replace` is atomic,
so on its failure the target is untouched and the fully written temp file
remains; on success the temp file has become the target. -/
def tryWriteReplace (doc : Doc) (writeOk replaceOk : Bool) (fs1 : FSt) :
    Except SaveErr Unit × FSt :=
  if writeOk then
    if replaceOk then (.ok (), ⟨.valid doc, .noTmp⟩)
    else (.error .replaceFailed, ⟨fs1.target, .fullTmp doc⟩)
  else (.error .writeFailed, ⟨fs1.target, .partialTmp⟩)

/-- The guarded save in `ConfigSession.__exit__` (under `_LOCK`):
`tempfile.mkstemp` creates the temp file (a failure there raises with
nothing created), then the `try` writes and replaces, and the `except`
unlinks the temp file and re-raises. -/
def savePhase (doc : Doc) (mkOk writeOk replaceOk : Bool) (fs : FSt) :
    Except SaveErr Unit × FSt :=
  if mkOk then
    let fs1 : FSt := ⟨fs.target, .emptyTmp⟩
    match tryWriteReplace doc writeOk replaceOk fs1 with
    | (.ok (), fs2) => (.ok (), fs2)
    | (.error e, fs2) => (.error e, unlinkTmp fs2)
  else (.error .mkstempFailed, fs)

inductive ExitErr where
  | keyError
  | saveErr (e : SaveErr)
deriving DecidableEq

/-- Outcomes of the fallible OS calls made by `ConfigSession.__exit__`. -/
structure WriteEnv where
  openOk : Bool
  readOk : Bool
  mkOk : Bool
  writeOk : Bool
  replaceOk : Bool
deriving DecidableEq

/-- `ConfigSession.__exit__`: re-read the document fresh from disk, build
this class's block from the instance's current values, replace this
class's entry, and — unless the session is read-only — persist atomically
via the temp-file-and-replace sequence. -/
def exitPhase (encode : Codec) (ft : List (String × TyTag)) (classKey : String)
    (keys : List String) (ro : Bool) (env : WriteEnv) (inst : Inst) (fs : FSt) :
    Except ExitErr Unit × FSt :=
  let fullConfig := readDocExit fs.target env.openOk env.readOk
  match buildBlock encode ft inst keys with
  | .error _ => (.error .keyError, fs)
  | .ok block =>
    let newDoc := setEntry classKey block fullConfig
    if ro then (.ok (), fs)
    else
      match savePhase newDoc env.mkOk env.writeOk env.replaceOk fs with
      | (.ok (), fs') => (.ok (), fs')
      | (.error e, fs') => (.error (.saveErr e), fs')

/-- `ConfigSession.__enter__`: read the document (a failed `open` on an
existing file propagates), extract this class's block
(`full_config.get(class_key, {})`), and run the per-field injection loop. -/
def enterPhase (decode : Codec) (setAttr : SetAttrFn) (ft : List (String × TyTag))
    (classKey : String) (keys : List String) (file : FileContent)
    (openOk readOk : Bool) (inst : Inst) : Except String Inst :=
  match readDocEnter file openOk readOk with
  | .error e => .error e
  | .ok doc => enterInject decode setAttr ft ((lookupKey classKey doc).getD []) keys inst

/-- The `instance_defaults` collection in `new_init`: every name from
`dir(cls)` that does not start with an underscore and whose class
attribute is not callable.  Only the key set matters downstream. -/
def dirDefaults (cls : PyClass) : List String :=
  (cls.attrs.map Prod.fst).filter
    (fun n => !(underscorePrefixed n) && !(classAttrCallable cls n))

inductive InitErr where
  | noValidFields
  | loadError (msg : String)
  | exitError (e : ExitErr)
deriving DecidableEq

/-- All environment outcomes one construction can encounter: the two codec
directions and the OS-call outcomes of the load and save phases. -/
structure InjectEnv where
  decode : Codec
  encode : Codec
  enterOpenOk : Bool
  enterReadOk : Bool
  write : WriteEnv

/-- `Inject.__init__`: `self._fields = set(at) if at else None` — note an
empty whitelist is falsy in Python and is therefore stored as `None`. -/
def injectFieldsArg (at' : Option (List String)) : Option (List String) :=
  match at' with
  | some l => if l.isEmpty then none else some l
  | none => none

/-- The wrapped constructor `new_init` installed by `Inject.__call__`,
run after the original constructor body (out of scope; `inst` is the
instance it produced): collect `instance_defaults` from `dir(cls)`, run
field discovery, raise `ValueError` when `field_types` is empty, then open
and immediately close a `ConfigSession`.  `fields` is `self._fields`; `ro`
selects the attribute path the load phase goes through, because a read-only
class had its `__setattr__` replaced at decoration time, before any
construction. -/
def newInit (cls : PyClass) (fields : Option (List String)) (ro : Bool)
    (env : InjectEnv) (inst : Inst) (fs : FSt) : Except InitErr (Inst × FSt) :=
  let disc := getConfigurableFields cls fields (dirDefaults cls)
  if disc.1.isEmpty then .error .noValidFields
  else
    let setAttr := if ro then protectedSetAttr else normalSetAttr
    match enterPhase env.decode setAttr disc.1 cls.qualname disc.2 fs.target
        env.enterOpenOk env.enterReadOk inst with
    | .error m => .error (.loadError m)
    | .ok inst1 =>
      match exitPhase env.encode disc.1 cls.qualname disc.2 ro env.write inst1 fs with
      | (.ok (), fs') => .ok (inst1, fs')
      | (.error e, _) => .error (.exitError e)

/-- A Python error value, distinguished by its kind. -/
inductive PyErr where
  | typeError (msg : String)
  | attributeError (msg : String)
deriving DecidableEq

/-- A Python function reduced to what the setter-override analysis needs:
how many parameters it declares and what its body raises when entered. -/
structure PyFunction where
  arity : Nat
  raisesWhenEntered : PyErr

/-- The nested `protect(name, value)` of `Inject.__protect_class`: two
declared parameters, and a body that unconditionally raises the descriptive
read-only `AttributeError`. -/
def protect : PyFunction :=
  ⟨2, .attributeError "property cannot set, because this class is read-only."⟩

/-- Attribute assignment `instance.name = value` on a class whose
`__setattr__` is `f`: CPython invokes the slot as `f(instance, name,
value)` — three arguments.  When the declared arity does not match, the
call itself raises `TypeError` before the body ever runs. -/
def invokeSetattrSlot (f : PyFunction) : PyErr :=
  if f.arity = 3 then f.raisesWhenEntered
  else .typeError "wrong number of arguments passed to the setter"

/-- A concrete codec for witnesses: accepts an `int` at declared type
`tInt` and a `str` at `tStr`, fails otherwise. -/
def codecStrict : Codec := fun v ty =>
  match ty, v with
  | .tInt, .int n => .ok (.int n)
  | .tStr, .str s => .ok (.str s)
  | _, _ => .error "unsupported value for declared type"

/-- Field table shared by several witnesses below. -/
def demoFt : List (String × TyTag) := [("size", TyTag.tInt), ("name", TyTag.tStr)]

/-- A read-only demo class: one annotated field with a default, one
method, one private attribute. -/
def demoCls : PyClass :=
  ⟨"Widget", [("size", .tInt)],
    [("size", .int 10), ("run", .fn "method"), ("_priv", .int 1)]⟩

def demoEnv : InjectEnv := ⟨codecStrict, codecStrict, true, true, ⟨true, true, true, true, true⟩⟩

/-- A persisted document holding `size = 42` for the demo class. -/
def demoFs42 : FSt := ⟨.valid [("Widget", [("size", PyVal.int 42)])], .noTmp⟩

theorem lookupKey_setEntry_self {α : Type} (k : String) (v : α) :
    ∀ l : List (String × α), lookupKey k (setEntry k v l) = some v := by
  intro l
  induction l with
  | nil => simp [setEntry, lookupKey]
  | cons hd tl ih =>
    obtain ⟨k', v'⟩ := hd
    by_cases h : k' = k
    · simp [setEntry, lookupKey, h]
    · simp [setEntry, lookupKey, h, ih]

theorem lookupKey_setEntry_ne {α : Type} (k k' : String) (v : α) (hne : k' ≠ k) :
    ∀ l : List (String × α), lookupKey k' (setEntry k v l) = lookupKey k' l := by
  intro l
  induction l with
  | nil => simp [setEntry, lookupKey, Ne.symm hne]
  | cons hd tl ih =>
    obtain ⟨k0, v0⟩ := hd
    simp only [setEntry]
    by_cases h : k0 = k
    · subst h
      simp [lookupKey, Ne.symm hne]
    · simp only [if_neg h, lookupKey]
      by_cases h' : k0 = k'
      · simp [h']
      · simp [h', ih]

theorem lookupKey_isSome_iff {α : Type} (k : String) :
    ∀ l : List (String × α), (lookupKey k l).isSome ↔ k ∈ l.map Prod.fst := by
  intro l
  induction l with
  | nil => simp [lookupKey]
  | cons hd tl ih =>
    obtain ⟨k', v'⟩ := hd
    by_cases h : k' = k
    · simp [lookupKey, h]
    · simp [lookupKey, h, ih, Ne.symm h]

/-- Claim C1: a name is in `valid_fields` (with its annotation recorded in
`field_types`) iff it is among the candidates — exactly the whitelist's
names when a whitelist is given (the empty whitelist included), otherwise
all annotated names — and it is annotated, appears in `instance_defaults`,
does not start with an underscore, and the class attribute of that name is
not callable.  The whitelist therefore only restricts and never adds names
or bypasses the filters. -/
theorem claim1_field_discovery (cls : PyClass) (explicitFields : Option (List String))
    (instDefaults : List String) (n : String) :
    (n ∈ (getConfigurableFields cls explicitFields instDefaults).2 ↔
      ((match explicitFields with
        | some ws => n ∈ ws
        | none => n ∈ cls.annots.map Prod.fst)
       ∧ (lookupKey n cls.annots).isSome
       ∧ n ∈ instDefaults
       ∧ underscorePrefixed n = false
       ∧ classAttrCallable cls n = false))
    ∧ (∀ t : TyTag, (n, t) ∈ (getConfigurableFields cls explicitFields instDefaults).1 ↔
        (n ∈ (getConfigurableFields cls explicitFields instDefaults).2
         ∧ lookupKey n cls.annots = some t)) := by
  constructor
  · simp only [getConfigurableFields, List.mem_filter, fieldOk, Bool.and_eq_true,
      Bool.not_eq_true', List.elem_iff]
    constructor
    · rintro ⟨hc, ⟨⟨hann, hdef⟩, hund⟩, hcall⟩
      refine ⟨?_, hann, hdef, ?_, hcall⟩
      · cases explicitFields <;> simpa using hc
      · simp [hund]
    · rintro ⟨hc, hann, hdef, hund, hcall⟩
      refine ⟨?_, ⟨⟨hann, hdef⟩, ?_⟩, hcall⟩
      · cases explicitFields <;> simpa using hc
      · simpa using hund
  · intro t
    simp only [getConfigurableFields, List.mem_filterMap, Option.map_eq_some']
    constructor
    · rintro ⟨m, hm, a, ha, heq⟩
      injection heq with h1 h2
      subst h1
      subst h2
      exact ⟨hm, ha⟩
    · rintro ⟨hm, ht⟩
      exact ⟨n, hm, t, ht, rfl⟩

theorem enterInject_protected_eq (decode : Codec) (ft : List (String × TyTag)) (block : Block) :
    ∀ (keys : List String) (inst inst' : Inst),
      enterInject decode protectedSetAttr ft block keys inst = .ok inst' → inst' = inst := by
  intro keys
  induction keys with
  | nil =>
    intro inst inst' h
    simp only [enterInject] at h
    exact (Except.ok.inj h).symm
  | cons key rest ih =>
    intro inst inst' h
    simp only [enterInject] at h
    cases h1 : lookupKey key inst with
    | none =>
      simp only [h1] at h
      exact ih inst inst' h
    | some cur =>
      simp only [h1] at h
      cases h2 : lookupKey key ft with
      | none => simp only [h2] at h; simp at h
      | some ty =>
        simp only [h2] at h
        cases h3 : decode ((lookupKey key block).getD cur) ty with
        | error e =>
          simp only [h3] at h
          exact ih inst inst' h
        | ok v =>
          simp only [h3, protectedSetAttr] at h
          exact ih inst inst' h

theorem enterInject_normal_frame (decode : Codec) (ft : List (String × TyTag)) (block : Block) :
    ∀ (keys : List String) (inst inst' : Inst),
      enterInject decode normalSetAttr ft block keys inst = .ok inst' →
      ∀ k, k ∉ keys → lookupKey k inst' = lookupKey k inst := by
  intro keys
  induction keys with
  | nil =>
    intro inst inst' h k _
    simp only [enterInject] at h
    rw [← Except.ok.inj h]
  | cons key rest ih =>
    intro inst inst' h k hk
    have hk1 : k ≠ key := fun he => hk (he ▸ List.mem_cons_self key rest)
    have hk2 : k ∉ rest := fun hm => hk (List.mem_cons_of_mem key hm)
    simp only [enterInject] at h
    cases h1 : lookupKey key inst with
    | none =>
      simp only [h1] at h
      exact ih inst inst' h k hk2
    | some cur =>
      simp only [h1] at h
      cases h2 : lookupKey key ft with
      | none => simp only [h2] at h; simp at h
      | some ty =>
        simp only [h2] at h
        cases h3 : decode ((lookupKey key block).getD cur) ty with
        | error e =>
          simp only [h3] at h
          exact ih inst inst' h k hk2
        | ok v =>
          simp only [h3, normalSetAttr] at h
          rw [ih (setEntry key v inst) inst' h k hk2,
            lookupKey_setEntry_ne key k v hk1]

theorem enterInject_normal_at (decode : Codec) (ft : List (String × TyTag)) (block : Block) :
    ∀ (keys : List String), keys.Nodup →
      ∀ (inst inst' : Inst),
        enterInject decode normalSetAttr ft block keys inst = .ok inst' →
        ∀ key, key ∈ keys →
          (lookupKey key inst = none → lookupKey key inst' = none)
          ∧ (∀ cur ty, lookupKey key inst = some cur → lookupKey key ft = some ty →
              ((∀ e, decode ((lookupKey key block).getD cur) ty = .error e →
                  lookupKey key inst' = some cur)
               ∧ (∀ v, decode ((lookupKey key block).getD cur) ty = .ok v →
                  lookupKey key inst' = some v))) := by
  intro keys
  induction keys with
  | nil =>
    intro _ inst inst' h key hmem
    exact absurd hmem (List.not_mem_nil key)
  | cons k0 rest ih =>
    intro hnd inst inst' h key hmem
    have hk0 : k0 ∉ rest := (List.nodup_cons.mp hnd).1
    have hnd' : rest.Nodup := (List.nodup_cons.mp hnd).2
    simp only [enterInject] at h
    rcases List.mem_cons.mp hmem with rfl | hmem'
    · cases h1 : lookupKey key inst with
      | none =>
        simp only [h1] at h
        refine ⟨fun _ => ?_, fun cur ty hcur _ => ?_⟩
        · rw [enterInject_normal_frame decode ft block rest inst inst' h key hk0, h1]
        · exact Option.noConfusion hcur
      | some cur0 =>
        simp only [h1] at h
        cases h2 : lookupKey key ft with
        | none => simp only [h2] at h; simp at h
        | some ty0 =>
          simp only [h2] at h
          refine ⟨fun hnone => ?_, fun cur ty hcur hty => ?_⟩
          · exact Option.noConfusion hnone
          · obtain rfl : cur0 = cur := Option.some.inj hcur
            obtain rfl : ty0 = ty := Option.some.inj hty
            cases h3 : decode ((lookupKey key block).getD cur0) ty0 with
            | error e0 =>
              simp only [h3] at h
              refine ⟨fun e _ => ?_, fun v hv => ?_⟩
              · rw [enterInject_normal_frame decode ft block rest inst inst' h key hk0, h1]
              · exact Except.noConfusion hv
            | ok v0 =>
              simp only [h3, normalSetAttr] at h
              refine ⟨fun e he => ?_, fun v hv => ?_⟩
              · exact Except.noConfusion he
              · obtain rfl : v0 = v := Except.ok.inj hv
                rw [enterInject_normal_frame decode ft block rest
                  (setEntry key v0 inst) inst' h key hk0]
                exact lookupKey_setEntry_self key v0 inst
    · have hne : key ≠ k0 := fun he => hk0 (he ▸ hmem')
      cases h1 : lookupKey k0 inst with
      | none =>
        simp only [h1] at h
        exact ih hnd' inst inst' h key hmem'
      | some cur0 =>
        simp only [h1] at h
        cases h2 : lookupKey k0 ft with
        | none => simp only [h2] at h; simp at h
        | some ty0 =>
          simp only [h2] at h
          cases h3 : decode ((lookupKey k0 block).getD cur0) ty0 with
          | error e0 =>
            simp only [h3] at h
            exact ih hnd' inst inst' h key hmem'
          | ok v0 =>
            simp only [h3, normalSetAttr] at h
            have hres := ih hnd' (setEntry k0 v0 inst) inst' h key hmem'
            rw [lookupKey_setEntry_ne k0 key v0 hne] at hres
            exact hres

theorem enterInject_normal_isOk (decode : Codec) (ft : List (String × TyTag)) (block : Block) :
    ∀ (keys : List String) (inst : Inst),
      (∀ k ∈ keys, (lookupKey k inst).isSome → (lookupKey k ft).isSome) →
      ∃ inst', enterInject decode normalSetAttr ft block keys inst = .ok inst' := by
  intro keys
  induction keys with
  | nil => intro inst _; exact ⟨inst, rfl⟩
  | cons k0 rest ih =>
    intro inst hcov
    cases h1 : lookupKey k0 inst with
    | none =>
      obtain ⟨i', hi⟩ := ih inst (fun k hk => hcov k (List.mem_cons_of_mem _ hk))
      exact ⟨i', by simp only [enterInject, h1]; exact hi⟩
    | some cur =>
      have hft : (lookupKey k0 ft).isSome :=
        hcov k0 (List.mem_cons_self k0 rest) (by simp [h1])
      obtain ⟨ty, h2⟩ := Option.isSome_iff_exists.mp hft
      cases h3 : decode ((lookupKey k0 block).getD cur) ty with
      | error e =>
        obtain ⟨i', hi⟩ := ih inst (fun k hk => hcov k (List.mem_cons_of_mem _ hk))
        exact ⟨i', by simp only [enterInject, h1, h2, h3]; exact hi⟩
      | ok v =>
        have hcov2 : ∀ k ∈ rest,
            (lookupKey k (setEntry k0 v inst)).isSome → (lookupKey k ft).isSome := by
          intro k hk hsome
          by_cases he : k = k0
          · subst he; rw [h2]; simp
          · rw [lookupKey_setEntry_ne k0 k v he] at hsome
            exact hcov k (List.mem_cons_of_mem _ hk) hsome
        obtain ⟨i', hi⟩ := ih (setEntry k0 v inst) hcov2
        exact ⟨i', by simp only [enterInject, h1, h2, h3, normalSetAttr]; exact hi⟩

theorem buildBlock_isOk (encode : Codec) (ft : List (String × TyTag)) (inst : Inst) :
    ∀ keys : List String, (∀ k ∈ keys, (lookupKey k ft).isSome) →
      ∃ b, buildBlock encode ft inst keys = .ok b := by
  intro keys
  induction keys with
  | nil => intro _; exact ⟨[], rfl⟩
  | cons k0 rest ih =>
    intro hcov
    obtain ⟨ty, h2⟩ :=
      Option.isSome_iff_exists.mp (hcov k0 (List.mem_cons_self k0 rest))
    obtain ⟨b, hb⟩ := ih (fun k hk => hcov k (List.mem_cons_of_mem _ hk))
    cases h1 : lookupKey k0 inst with
    | none => exact ⟨b, by simp only [buildBlock, h2, h1]; exact hb⟩
    | some v =>
      cases h3 : encode v ty with
      | error e => exact ⟨b, by simp only [buildBlock, h2, h1, h3]; exact hb⟩
      | ok ev =>
        exact ⟨(k0, ev) :: b, by simp only [buildBlock, h2, h1, h3, hb, Except.map]⟩

theorem buildBlock_not_mem (encode : Codec) (ft : List (String × TyTag)) (inst : Inst) :
    ∀ (keys : List String) (b : Block) (key : String), key ∉ keys →
      buildBlock encode ft inst keys = .ok b → lookupKey key b = none := by
  intro keys
  induction keys with
  | nil =>
    intro b key _ h
    simp only [buildBlock] at h
    rw [← Except.ok.inj h]
    rfl
  | cons k0 rest ih =>
    intro b key hk h
    have hk1 : key ≠ k0 := fun he => hk (he ▸ List.mem_cons_self k0 rest)
    have hk2 : key ∉ rest := fun hm => hk (List.mem_cons_of_mem k0 hm)
    simp only [buildBlock] at h
    cases h2 : lookupKey k0 ft with
    | none => simp only [h2] at h; simp at h
    | some ty =>
      simp only [h2] at h
      cases h1 : lookupKey k0 inst with
      | none =>
        simp only [h1] at h
        exact ih b key hk2 h
      | some v =>
        simp only [h1] at h
        cases h3 : encode v ty with
        | error e =>
          simp only [h3] at h
          exact ih b key hk2 h
        | ok ev =>
          simp only [h3] at h
          cases hb : buildBlock encode ft inst rest with
          | error e => rw [hb] at h; simp [Except.map] at h
          | ok b' =>
            rw [hb] at h
            simp only [Except.map] at h
            rw [← Except.ok.inj h]
            simp only [lookupKey, if_neg (Ne.symm hk1)]
            exact ih b' key hk2 hb

theorem buildBlock_at (encode : Codec) (ft : List (String × TyTag)) (inst : Inst) :
    ∀ (keys : List String), keys.Nodup →
      ∀ b : Block, buildBlock encode ft inst keys = .ok b →
      ∀ key ∈ keys, ∀ ty, lookupKey key ft = some ty →
        (lookupKey key inst = none → lookupKey key b = none)
        ∧ (∀ v, lookupKey key inst = some v →
            ((∀ e, encode v ty = .error e → lookupKey key b = none)
             ∧ (∀ ev, encode v ty = .ok ev → lookupKey key b = some ev))) := by
  intro keys
  induction keys with
  | nil =>
    intro _ b _ key hmem
    exact absurd hmem (List.not_mem_nil key)
  | cons k0 rest ih =>
    intro hnd b h key hmem ty hty
    have hk0 : k0 ∉ rest := (List.nodup_cons.mp hnd).1
    have hnd' : rest.Nodup := (List.nodup_cons.mp hnd).2
    simp only [buildBlock] at h
    rcases List.mem_cons.mp hmem with rfl | hmem'
    · rw [hty] at h
      cases h1 : lookupKey key inst with
      | none =>
        simp only [h1] at h
        refine ⟨fun _ => buildBlock_not_mem encode ft inst rest b key hk0 h,
          fun v hv => ?_⟩
        exact Option.noConfusion hv
      | some v0 =>
        simp only [h1] at h
        refine ⟨fun hnone => Option.noConfusion hnone, fun v hv => ?_⟩
        obtain rfl : v0 = v := Option.some.inj hv
        cases h3 : encode v0 ty with
        | error e0 =>
          simp only [h3] at h
          refine ⟨fun e _ => buildBlock_not_mem encode ft inst rest b key hk0 h,
            fun ev hev => ?_⟩
          exact Except.noConfusion hev
        | ok ev0 =>
          simp only [h3] at h
          refine ⟨fun e he => Except.noConfusion he, fun ev hev => ?_⟩
          obtain rfl : ev0 = ev := Except.ok.inj hev
          cases hb : buildBlock encode ft inst rest with
          | error e => rw [hb] at h; simp [Except.map] at h
          | ok b' =>
            rw [hb] at h
            simp only [Except.map] at h
            rw [← Except.ok.inj h]
            simp [lookupKey]
    · have hne : key ≠ k0 := fun he => hk0 (he ▸ hmem')
      cases h2 : lookupKey k0 ft with
      | none => simp only [h2] at h; simp at h
      | some ty0 =>
        simp only [h2] at h
        cases h1 : lookupKey k0 inst with
        | none =>
          simp only [h1] at h
          exact ih hnd' b h key hmem' ty hty
        | some v0 =>
          simp only [h1] at h
          cases h3 : encode v0 ty0 with
          | error e0 =>
            simp only [h3] at h
            exact ih hnd' b h key hmem' ty hty
          | ok ev0 =>
            simp only [h3] at h
            cases hb : buildBlock encode ft inst rest with
            | error e => rw [hb] at h; simp [Except.map] at h
            | ok b' =>
              rw [hb] at h
              simp only [Except.map] at h
              rw [← Except.ok.inj h]
              have hres := ih hnd' b' hb key hmem' ty hty
              simp only [lookupKey, if_neg (Ne.symm hne)]
              exact hres

theorem exitPhase_spec (encode : Codec) (ft : List (String × TyTag)) (classKey : String)
    (keys : List String) (env : WriteEnv) (inst : Inst) (fs : FSt) :
    (∃ b, buildBlock encode ft inst keys = .ok b ∧
      exitPhase encode ft classKey keys false env inst fs =
        (.ok (), ⟨.valid (setEntry classKey b
          (readDocExit fs.target env.openOk env.readOk)), .noTmp⟩))
    ∨ exitPhase encode ft classKey keys false env inst fs = (.error .keyError, fs)
    ∨ exitPhase encode ft classKey keys false env inst fs =
        (.error (.saveErr .mkstempFailed), fs)
    ∨ (∃ e, (e = SaveErr.writeFailed ∨ e = SaveErr.replaceFailed) ∧
        exitPhase encode ft classKey keys false env inst fs =
          (.error (.saveErr e), ⟨fs.target, .noTmp⟩)) := by
  obtain ⟨o, r, mk, w, rep⟩ := env
  cases hb : buildBlock encode ft inst keys with
  | error e =>
    right; left
    simp [exitPhase, hb]
  | ok b =>
    cases mk with
    | false =>
      right; right; left
      simp [exitPhase, hb, savePhase]
    | true =>
      cases w with
      | false =>
        right; right; right
        exact ⟨.writeFailed, Or.inl rfl,
          by simp [exitPhase, hb, savePhase, tryWriteReplace, unlinkTmp]⟩
      | true =>
        cases rep with
        | false =>
          right; right; right
          exact ⟨.replaceFailed, Or.inr rfl,
            by simp [exitPhase, hb, savePhase, tryWriteReplace, unlinkTmp]⟩
        | true =>
          left
          exact ⟨b, rfl, by simp [exitPhase, hb, savePhase, tryWriteReplace]⟩

theorem exitPhase_readonly (encode : Codec) (ft : List (String × TyTag)) (classKey : String)
    (keys : List String) (env : WriteEnv) (inst : Inst) (fs : FSt) :
    exitPhase encode ft classKey keys true env inst fs = (.ok (), fs)
    ∨ exitPhase encode ft classKey keys true env inst fs = (.error .keyError, fs) := by
  cases hb : buildBlock encode ft inst keys with
  | error e => right; simp [exitPhase, hb]
  | ok b => left; simp [exitPhase, hb]

/-- Claim C2: on a non-read-only save, the outcome is exactly one of: the
target was atomically replaced by the fully written updated document and
the temporary file is gone; the block-building step raised before any file
was touched; `mkstemp` failed with nothing created; or the temp-file write
or the rename failed, in which case the temporary file was removed, the
failure is raised, and the previously persisted document is unchanged. -/
theorem claim2_atomic_save (encode : Codec) (ft : List (String × TyTag)) (classKey : String)
    (keys : List String) (env : WriteEnv) (inst : Inst) (fs : FSt) :
    (∃ b, buildBlock encode ft inst keys = .ok b ∧
      exitPhase encode ft classKey keys false env inst fs =
        (.ok (), ⟨.valid (setEntry classKey b
          (readDocExit fs.target env.openOk env.readOk)), .noTmp⟩))
    ∨ exitPhase encode ft classKey keys false env inst fs = (.error .keyError, fs)
    ∨ exitPhase encode ft classKey keys false env inst fs =
        (.error (.saveErr .mkstempFailed), fs)
    ∨ (∃ e, (e = SaveErr.writeFailed ∨ e = SaveErr.replaceFailed) ∧
        exitPhase encode ft classKey keys false env inst fs =
          (.error (.saveErr e), ⟨fs.target, .noTmp⟩)) :=
  exitPhase_spec encode ft classKey keys env inst fs

/-- Claim C3: when a non-read-only save completes, the document written to
the target maps this session's class key to the newly built block and every
other key to exactly the block the exit-time re-read produced for it. -/
theorem claim3_sibling_preservation (encode : Codec) (ft : List (String × TyTag))
    (classKey : String) (keys : List String) (env : WriteEnv) (inst : Inst)
    (fs fs' : FSt)
    (h : exitPhase encode ft classKey keys false env inst fs = (.ok (), fs')) :
    ∃ b d, buildBlock encode ft inst keys = .ok b
      ∧ fs'.target = .valid d
      ∧ lookupKey classKey d = some b
      ∧ ∀ k, k ≠ classKey →
          lookupKey k d = lookupKey k (readDocExit fs.target env.openOk env.readOk) := by
  rcases exitPhase_spec encode ft classKey keys env inst fs with
    ⟨b, hb, he⟩ | he | he | ⟨e, _, he⟩
  · have h2 : fs' = ⟨.valid (setEntry classKey b
        (readDocExit fs.target env.openOk env.readOk)), .noTmp⟩ :=
      (congrArg Prod.snd (he.symm.trans h)).symm
    exact ⟨b, setEntry classKey b (readDocExit fs.target env.openOk env.readOk),
      hb, by rw [h2], lookupKey_setEntry_self classKey b _,
      fun k hk => lookupKey_setEntry_ne classKey k b hk _⟩
  · exact absurd (congrArg Prod.fst (he.symm.trans h)) (by simp)
  · exact absurd (congrArg Prod.fst (he.symm.trans h)) (by simp)
  · exact absurd (congrArg Prod.fst (he.symm.trans h)) (by simp)

/-- Claim C8: a read-only session's release phase performs no write at all:
the file-system state after exit is identical to the state before,
whatever the instance's field values are. -/
theorem claim8_readonly_no_write (encode : Codec) (ft : List (String × TyTag))
    (classKey : String) (keys : List String) (env : WriteEnv) (inst : Inst) (fs : FSt) :
    (exitPhase encode ft classKey keys true env inst fs).2 = fs := by
  rcases exitPhase_readonly encode ft classKey keys env inst fs with h | h <;> rw [h]

theorem filterMap_annots_nil (cls : PyClass) :
    ∀ l : List String, (∀ n ∈ l, (lookupKey n cls.annots).isSome) →
      (l.filterMap (fun n => (lookupKey n cls.annots).map (fun t => (n, t))) = [] ↔
        l = []) := by
  intro l hall
  cases l with
  | nil => simp
  | cons n rest =>
    obtain ⟨t, ht⟩ :=
      Option.isSome_iff_exists.mp (hall n (List.mem_cons_self n rest))
    simp [List.filterMap_cons, ht]

theorem disc_fst_empty_iff (cls : PyClass) (fields : Option (List String))
    (d : List String) :
    (getConfigurableFields cls fields d).1 = [] ↔
      (getConfigurableFields cls fields d).2 = [] := by
  have hall : ∀ n ∈ (getConfigurableFields cls fields d).2,
      (lookupKey n cls.annots).isSome := by
    intro n hn
    have hf : fieldOk cls d n = true := (List.mem_filter.mp hn).2
    simp only [fieldOk, Bool.and_eq_true] at hf
    exact hf.1.1.1
  exact filterMap_annots_nil cls (getConfigurableFields cls fields d).2 hall

/-- Claim C7: constructing an instance of a decorated class fails with the
no-valid-fields error exactly when field discovery (run on the defaults
collected from `dir(cls)`) yields an empty set of valid configurable
fields; with at least one field, that error is never raised. -/
theorem claim7_empty_discovery_fails (cls : PyClass) (fields : Option (List String))
    (ro : Bool) (env : InjectEnv) (inst : Inst) (fs : FSt) :
    newInit cls fields ro env inst fs = .error .noValidFields ↔
      (getConfigurableFields cls fields (dirDefaults cls)).2 = [] := by
  cases hemp : (getConfigurableFields cls fields (dirDefaults cls)).1.isEmpty with
  | true =>
    have h1 : (getConfigurableFields cls fields (dirDefaults cls)).1 = [] :=
      List.isEmpty_iff.mp hemp
    constructor
    · intro _
      exact (disc_fst_empty_iff cls fields (dirDefaults cls)).mp h1
    · intro _
      simp [newInit, hemp]
  | false =>
    constructor
    · intro h
      exfalso
      simp only [newInit, hemp, Bool.false_eq_true, if_false] at h
      cases he : enterPhase env.decode (if ro then protectedSetAttr else normalSetAttr)
          (getConfigurableFields cls fields (dirDefaults cls)).1 cls.qualname
          (getConfigurableFields cls fields (dirDefaults cls)).2 fs.target
          env.enterOpenOk env.enterReadOk inst with
      | error m =>
        simp only [he] at h
        exact absurd h (by simp)
      | ok i1 =>
        simp only [he] at h
        rcases hex : exitPhase env.encode
            (getConfigurableFields cls fields (dirDefaults cls)).1 cls.qualname
            (getConfigurableFields cls fields (dirDefaults cls)).2 ro env.write i1 fs
          with ⟨r1, fs1⟩
        simp only [hex] at h
        cases r1 with
        | ok u =>
          cases u
          simp at h
        | error e1 =>
          simp at h
    · intro hvf
      exfalso
      have h1 := (disc_fst_empty_iff cls fields (dirDefaults cls)).mpr hvf
      rw [h1] at hemp
      simp at hemp

/-- Claim C4 counterexample: the load phase does raise due to the state of
the document file — an existing file whose `open` fails makes
`ConfigSession.__enter__` propagate the `OSError`, because that `open`
sits outside the `try` block. -/
theorem claim4_counterexample :
    enterPhase codecStrict normalSetAttr demoFt "Widget" ["size"] (.valid [])
      false true [("size", PyVal.int 10)] = .error "OSError from open" := rfl

/-- Claim C4 (amended): when the file is absent or its `open` succeeds,
the load phase completes normally, and an absent, malformed, or
unreadable-after-open document is treated as empty; but an existing file
whose `open` fails propagates the error (see the counterexample). -/
theorem claim4_load_recovery (decode : Codec) (ft : List (String × TyTag))
    (classKey : String) (keys : List String) (file : FileContent)
    (openOk readOk : Bool) (inst : Inst)
    (hopen : file = .absentFile ∨ openOk = true)
    (hcov : ∀ k ∈ keys, (lookupKey k inst).isSome → (lookupKey k ft).isSome) :
    (∃ i, enterPhase decode normalSetAttr ft classKey keys file openOk readOk inst = .ok i)
    ∧ ((file = .absentFile ∨ file = .corrupt ∨ readOk = false) →
        readDocEnter file openOk readOk = .ok []) := by
  have hread : ∃ d, readDocEnter file openOk readOk = .ok d := by
    rcases hopen with rfl | rfl
    · exact ⟨[], rfl⟩
    · cases file with
      | absentFile => exact ⟨[], rfl⟩
      | corrupt => exact ⟨[], rfl⟩
      | valid d =>
        cases readOk
        · exact ⟨[], rfl⟩
        · exact ⟨d, rfl⟩
  constructor
  · obtain ⟨d, hd⟩ := hread
    obtain ⟨i, hi⟩ := enterInject_normal_isOk decode ft
      ((lookupKey classKey d).getD []) keys inst hcov
    exact ⟨i, by simp only [enterPhase, hd]; exact hi⟩
  · intro hcase
    rcases hcase with rfl | rfl | hr
    · rfl
    · rcases hopen with habs | rfl
      · exact absurd habs (by simp)
      · cases readOk <;> rfl
    · rcases hopen with rfl | rfl
      · rfl
      · cases file <;> simp [readDocEnter, hr]

theorem claim4_witness :
    readDocEnter .corrupt true true = .ok [] := by
  obtain ⟨-, hempty⟩ := claim4_load_recovery codecStrict demoFt "Widget" ["size"]
    .corrupt true true [("size", PyVal.int 10)] (Or.inr rfl) (by decide)
  exact hempty (Or.inr (Or.inl rfl))

/-- Claim C5: for a field in the injectable set, if the instance lacks the
attribute it is skipped and stays absent; otherwise the raw value is the
persisted one when present in the class block, else the instance's own
pre-load value, and the attribute is assigned the codec's decoding of that
raw value at the field's declared type. -/
theorem claim5_field_injection (decode : Codec) (ft : List (String × TyTag))
    (block : Block) (keys : List String) (inst inst' : Inst) (key : String)
    (hnd : keys.Nodup) (hmem : key ∈ keys)
    (h : enterInject decode normalSetAttr ft block keys inst = .ok inst') :
    (lookupKey key inst = none → lookupKey key inst' = none)
    ∧ (∀ cur ty v, lookupKey key inst = some cur → lookupKey key ft = some ty →
        decode ((lookupKey key block).getD cur) ty = .ok v →
        lookupKey key inst' = some v) := by
  have hres := enterInject_normal_at decode ft block keys hnd inst inst' h key hmem
  exact ⟨hres.1, fun cur ty v hcur hty hv => (hres.2 cur ty hcur hty).2 v hv⟩

theorem claim5_witness :
    lookupKey "size" ([("size", PyVal.int 42), ("name", PyVal.str "w")] : Inst)
      = some (PyVal.int 42) :=
  (claim5_field_injection codecStrict demoFt [("size", PyVal.int 42)]
    ["size", "name"] [("size", PyVal.int 10), ("name", PyVal.str "w")]
    [("size", PyVal.int 42), ("name", PyVal.str "w")] "size"
    (by decide) (by decide) (by decide)).2
    (PyVal.int 10) TyTag.tInt (PyVal.int 42) (by decide) (by decide) (by decide)

/-- Claim C6: codec failures are contained to the single failing field.
During load the loop never aborts, a field whose decode fails keeps its
pre-load value, and fields whose decode succeeds are still assigned;
during save the loop never aborts, a field whose encode fails is omitted
from the new block, and fields whose encode succeeds are still recorded. -/
theorem claim6_codec_containment (decode encode : Codec) (ft : List (String × TyTag))
    (block : Block) (keys : List String) (inst : Inst)
    (hnd : keys.Nodup)
    (hcov : ∀ k ∈ keys, (lookupKey k ft).isSome) :
    ((∃ i, enterInject decode normalSetAttr ft block keys inst = .ok i)
     ∧ ∀ i, enterInject decode normalSetAttr ft block keys inst = .ok i →
         ∀ key ∈ keys, ∀ cur ty, lookupKey key inst = some cur →
           lookupKey key ft = some ty →
           ((∀ e, decode ((lookupKey key block).getD cur) ty = .error e →
               lookupKey key i = some cur)
            ∧ (∀ v, decode ((lookupKey key block).getD cur) ty = .ok v →
               lookupKey key i = some v)))
    ∧ ((∃ b, buildBlock encode ft inst keys = .ok b)
     ∧ ∀ b, buildBlock encode ft inst keys = .ok b →
         ∀ key ∈ keys, ∀ v ty, lookupKey key inst = some v →
           lookupKey key ft = some ty →
           ((∀ e, encode v ty = .error e → lookupKey key b = none)
            ∧ (∀ ev, encode v ty = .ok ev → lookupKey key b = some ev))) := by
  refine ⟨⟨enterInject_normal_isOk decode ft block keys inst
      (fun k hk _ => hcov k hk), fun i hi key hkey cur ty hcur hty => ?_⟩,
    ⟨buildBlock_isOk encode ft inst keys hcov, fun b hb key hkey v ty hv hty => ?_⟩⟩
  · exact (enterInject_normal_at decode ft block keys hnd inst i hi key hkey).2
      cur ty hcur hty
  · exact (buildBlock_at encode ft inst keys hnd b hb key hkey ty hty).2 v hv

theorem claim6_witness :
    lookupKey "flag" ([("size", PyVal.int 1), ("flag", PyVal.str "x")] : Inst)
      = some (PyVal.str "x")
    ∧ lookupKey "flag" ([("size", PyVal.int 1)] : Block) = none := by
  obtain ⟨⟨-, hall⟩, -, hball⟩ := claim6_codec_containment codecStrict codecStrict
    [("size", TyTag.tInt), ("flag", TyTag.tInt)] []
    ["size", "flag"] [("size", PyVal.int 1), ("flag", PyVal.str "x")]
    (by decide) (by decide)
  constructor
  · exact (hall [("size", PyVal.int 1), ("flag", PyVal.str "x")] (by decide) "flag"
      (by decide) (PyVal.str "x") TyTag.tInt (by decide) (by decide)).1
      "unsupported value for declared type" (by decide)
  · exact (hball [("size", PyVal.int 1)] (by decide) "flag" (by decide)
      (PyVal.str "x") TyTag.tInt (by decide) (by decide)).1
      "unsupported value for declared type" (by decide)

/-- Claim C9 (code bug in the source): `protect` declares only `(name,
value)`, but the `__setattr__` slot is invoked with the instance as well —
three arguments — so every external assignment on a read-only class fails
immediately, yet with an arity `TypeError` instead of the descriptive
read-only `AttributeError` the body would raise; that message is
unreachable. -/
theorem claim9_protect_raises_typeerror :
    invokeSetattrSlot protect
      = .typeError "wrong number of arguments passed to the setter"
    ∧ invokeSetattrSlot protect ≠ protect.raisesWhenEntered := by
  constructor
  · rfl
  · decide

theorem enterPhase_protected_eq (decode : Codec) (ft : List (String × TyTag))
    (classKey : String) (keys : List String) (file : FileContent)
    (openOk readOk : Bool) (inst i : Inst)
    (h : enterPhase decode protectedSetAttr ft classKey keys file openOk readOk inst
      = .ok i) :
    i = inst := by
  unfold enterPhase at h
  cases hd : readDocEnter file openOk readOk with
  | error e =>
    simp only [hd] at h
    exact Except.noConfusion h
  | ok d =>
    simp only [hd] at h
    exact enterInject_protected_eq decode ft ((lookupKey classKey d).getD []) keys inst i h

/-- Claim C10: the setter override of a read-only class is in place before
any construction, so every assignment the load phase attempts raises and
is caught by the per-field handler — a successfully constructed read-only
instance keeps all its constructor-time field values, whatever the
persisted document contains, and the file system is untouched as well. -/
theorem claim10_readonly_keeps_defaults (cls : PyClass) (fields : Option (List String))
    (env : InjectEnv) (inst : Inst) (fs : FSt) (inst' : Inst) (fs' : FSt)
    (h : newInit cls fields true env inst fs = .ok (inst', fs')) :
    inst' = inst ∧ fs' = fs := by
  cases hemp : (getConfigurableFields cls fields (dirDefaults cls)).1.isEmpty with
  | true =>
    exfalso
    simp [newInit, hemp] at h
  | false =>
    simp only [newInit, hemp, Bool.false_eq_true, if_false, if_true] at h
    cases he : enterPhase env.decode protectedSetAttr
        (getConfigurableFields cls fields (dirDefaults cls)).1 cls.qualname
        (getConfigurableFields cls fields (dirDefaults cls)).2 fs.target
        env.enterOpenOk env.enterReadOk inst with
    | error m =>
      simp only [he] at h
      exact Except.noConfusion h
    | ok i1 =>
      simp only [he] at h
      have hi1 : i1 = inst := enterPhase_protected_eq env.decode
        (getConfigurableFields cls fields (dirDefaults cls)).1 cls.qualname
        (getConfigurableFields cls fields (dirDefaults cls)).2 fs.target
        env.enterOpenOk env.enterReadOk inst i1 he
      rcases exitPhase_readonly env.encode
          (getConfigurableFields cls fields (dirDefaults cls)).1 cls.qualname
          (getConfigurableFields cls fields (dirDefaults cls)).2 env.write i1 fs
        with hex | hex
      · simp only [hex] at h
        have hpair := Except.ok.inj h
        exact ⟨(congrArg Prod.fst hpair).symm.trans hi1,
          (congrArg Prod.snd hpair).symm⟩
      · simp only [hex] at h
        exact Except.noConfusion h

theorem claim10_witness :
    newInit demoCls none true demoEnv [("size", PyVal.int 10)] demoFs42
      = .ok ([("size", PyVal.int 10)], demoFs42)
    ∧ ([("size", PyVal.int 10)] : Inst) = [("size", PyVal.int 10)] :=
  ⟨rfl, (claim10_readonly_keeps_defaults demoCls none demoEnv
      [("size", PyVal.int 10)] demoFs42 [("size", PyVal.int 10)] demoFs42 rfl).1⟩

theorem claim3_witness :
    lookupKey "Other"
        ([("Other", [("x", PyVal.int 1)]), ("Widget", [("size", PyVal.int 10)])] : Doc)
      = lookupKey "Other"
          (readDocExit (.valid [("Other", [("x", PyVal.int 1)]),
            ("Widget", [("size", PyVal.int 5)])]) true true) := by
  obtain ⟨b, d, hb, ht, hk, hsib⟩ := claim3_sibling_preservation codecStrict
    [("size", TyTag.tInt)] "Widget" ["size"] ⟨true, true, true, true, true⟩
    [("size", PyVal.int 10)]
    ⟨.valid [("Other", [("x", PyVal.int 1)]), ("Widget", [("size", PyVal.int 5)])], .noTmp⟩
    ⟨.valid [("Other", [("x", PyVal.int 1)]), ("Widget", [("size", PyVal.int 10)])], .noTmp⟩
    rfl
  have hd : d = [("Other", [("x", PyVal.int 1)]), ("Widget", [("size", PyVal.int 10)])] :=
    (FileContent.valid.inj ht).symm
  rw [← hd]
  exact hsib "Other" (by decide)
